import Mathlib

/-!
# The host-heap allocator of `mlx/allocator.cpp`

A shallow embedding of the public `malloc` / `free` entry points and of
`CommonAllocator::{malloc, free, size}`.

The C++ functions act on the process heap through `std::malloc`, `std::free` and
two raw accesses to a `size_t` object at the start of a block.  The heap is made
explicit here: a `Heap` is the list of live blocks, each with its start address, the
number of bytes that were requested for it and the `size_t` object stored at its
start (if one was written).  Every function takes the heap and gives back an
`Outcome`: a normal return with the new heap, a thrown `std::runtime_error`, or
undefined behaviour (an access outside a live block, a release of an address that is
not a live block).

The answer of the host heap to a request is not determined by the program, so it is
an argument (`cand`): the address the host heap offers.  `stdMalloc` hands it out
when it is a non-null address whose range is free, and reports failure (null)
otherwise, so every value of `cand` stands for a behaviour the host heap is allowed
to show, and both failure and success are covered.

Sizes are `size_t` values of a 64-bit target: natural numbers below `SIZE_LIMIT`,
with the wrap-around of the one addition in the source written out.
-/

set_option linter.dupNamespace false

namespace mlx.core.allocator

/-! ## Machine constants -/

/-- The number of values of `size_t` on the 64-bit targets the library is built for. -/
def SIZE_LIMIT : Nat := 2 ^ 64

/-- The largest `size_t` value. -/
def SIZE_MAX : Nat := SIZE_LIMIT - 1

/-- The value of `sizeof(size_t)`: the width of the size header, in bytes. -/
def sizeofSizeT : Nat := 8

/-! ## The host heap -/

/-- One live block of the host heap: its start address, the number of bytes requested
for it, and the `size_t` object stored at its start (`none` while nothing was
written there). -/
structure Block where
  base : Nat
  len : Nat
  header : Option Nat
deriving DecidableEq

/-- The live blocks, most recent first. -/
abbrev Heap := List Block

/-- The result of running one of the functions on a heap. -/
inductive Outcome (α : Type) where
  | ret (value : α) (heap : Heap)
  | raise (msg : String) (heap : Heap)
  | undefined
deriving DecidableEq

/-- The heap after a call, when the call has defined behaviour (a thrown error leaves
a heap behind as well). -/
def Outcome.heap? {α : Type} : Outcome α → Option Heap
  | .ret _ h => some h
  | .raise _ h => some h
  | .undefined => none

/-- The address range `[p, p + n)` (one address wide for `n = 0`, so that zero-size
blocks keep distinct addresses) meets no live block. -/
def isFresh (h : Heap) (p n : Nat) : Bool :=
  h.all (fun blk => decide (p + max n 1 ≤ blk.base ∨ blk.base + max blk.len 1 ≤ p))

/-- The C library function `std::malloc(n)`, by its standard contract, with the host
heap offering the address `cand`: a
non-null offer whose range lies in the address space and is free becomes a new live
block with nothing written in it; any other offer is a failed request, which returns
null and leaves the heap as it was. -/
def stdMalloc (h : Heap) (n cand : Nat) : Heap × Nat :=
  if cand ≠ 0 ∧ cand + n ≤ SIZE_LIMIT ∧ isFresh h cand n = true then
    (⟨cand, n, none⟩ :: h, cand)
  else
    (h, 0)

/-- The C library function `std::free(p)`, by its standard contract: nothing for null,
the release of the live block that starts at `p`, and undefined behaviour (`none`) for
any other address. -/
def stdFree (h : Heap) (p : Nat) : Option Heap :=
  if p = 0 then some h
  else if h.any (fun blk => decide (blk.base = p)) = true then
    some (h.filter (fun blk => decide (blk.base ≠ p)))
  else none

/-- The store `*static_cast<size_t*>(p) = v`: defined when `p` is the start of a live
block that has room for a `size_t`; `none` is undefined behaviour. -/
def storeSizeT : Heap → Nat → Nat → Option Heap
  | [], _, _ => none
  | blk :: rest, p, v =>
    if blk.base = p then
      if sizeofSizeT ≤ blk.len then some (⟨blk.base, blk.len, some v⟩ :: rest) else none
    else
      (storeSizeT rest p v).map (fun rest1 => blk :: rest1)

/-- The load `*static_cast<size_t*>(p)`: defined when `p` is the start of a live block
that has room for a `size_t` and one was stored there; `none` is undefined
behaviour. -/
def loadSizeT : Heap → Nat → Option Nat
  | [], _ => none
  | blk :: rest, p =>
    if blk.base = p then
      if sizeofSizeT ≤ blk.len then blk.header else none
    else
      loadSizeT rest p

/-! ## Buffer and the allocator interface -/

/-- Modelled from the spec: the class `Buffer` of `mlx/allocator.h`, which holds
exactly one raw pointer (null is `0`); `ptr()` returns that pointer unchanged. -/
structure Buffer where
  ptr : Nat
deriving DecidableEq

/-- Modelled from the spec: the abstract class `Allocator` of `mlx/allocator.h`, the
capability set `malloc`, `free`, `size`.  Each operation sees the heap; `malloc` also
sees the offer of the host heap. -/
structure Allocator where
  malloc : Heap → Nat → Nat → Outcome Buffer
  free : Heap → Buffer → Outcome Unit
  size : Heap → Buffer → Outcome Nat

/-! ## CommonAllocator -/

/-- The argument of `std::malloc` in `CommonAllocator::malloc`: the `size_t` sum
`size + sizeof(size_t)`, which wraps around at `SIZE_LIMIT`. -/
def CommonAllocator.requestBytes (size : Nat) : Nat :=
  (size + sizeofSizeT) % SIZE_LIMIT

/-- The method `CommonAllocator::malloc(size)`. -/
def CommonAllocator.malloc (h : Heap) (size cand : Nat) : Outcome Buffer :=
  match stdMalloc h (CommonAllocator.requestBytes size) cand with
  | (h1, ptr) =>
    if ptr ≠ 0 then
      match storeSizeT h1 ptr size with
      | some h2 => .ret ⟨ptr⟩ h2
      | none => .undefined
    else
      .ret ⟨ptr⟩ h1

/-- The method `CommonAllocator::free(buffer)`. -/
def CommonAllocator.free (h : Heap) (buffer : Buffer) : Outcome Unit :=
  match stdFree h buffer.ptr with
  | some h1 => .ret () h1
  | none => .undefined

/-- The method `CommonAllocator::size(buffer)`. -/
def CommonAllocator.size (h : Heap) (buffer : Buffer) : Outcome Nat :=
  if buffer.ptr = 0 then .ret 0 h
  else
    match loadSizeT h buffer.ptr with
    | some v => .ret v h
    | none => .undefined

/-- The one concrete allocator of the file, as a value of the interface. -/
def commonAllocator : Allocator :=
  ⟨CommonAllocator.malloc, CommonAllocator.free, CommonAllocator.size⟩

/-- Modelled from the spec: the global accessor `allocator()` declared in
`mlx/allocator.h`, which returns the single process-wide instance, the
`CommonAllocator`. -/
def allocator : Allocator := commonAllocator

/-! ## The public entry points -/

/-- The text streamed into the `std::ostringstream` of the public `malloc`. -/
def mallocErrorMessage (size : Nat) : String :=
  "[malloc] Unable to allocate " ++ toString size ++ " bytes."

/-- The public `malloc(size)`. -/
def malloc (h : Heap) (size cand : Nat) : Outcome Buffer :=
  match Allocator.malloc allocator h size cand with
  | .ret buffer h1 =>
    if size ≠ 0 ∧ buffer.ptr = 0 then .raise (mallocErrorMessage size) h1
    else .ret buffer h1
  | .raise msg h1 => .raise msg h1
  | .undefined => .undefined

/-- The public `free(buffer)`. -/
def free (h : Heap) (buffer : Buffer) : Outcome Unit :=
  Allocator.free allocator h buffer

/-! ## Sequences of calls -/

/-- One call made by client code. -/
inductive Op where
  | malloc (size cand : Nat)
  | free (buffer : Buffer)
  | size (buffer : Buffer)
  | publicMalloc (size cand : Nat)
  | publicFree (buffer : Buffer)
deriving DecidableEq

/-- The heap after one call; `none` when the call has undefined behaviour.  A thrown
allocation failure is caught by the caller and the run goes on. -/
def step (h : Heap) : Op → Option Heap
  | .malloc size cand => (CommonAllocator.malloc h size cand).heap?
  | .free buffer => (CommonAllocator.free h buffer).heap?
  | .size buffer => (CommonAllocator.size h buffer).heap?
  | .publicMalloc size cand => (mlx.core.allocator.malloc h size cand).heap?
  | .publicFree buffer => (mlx.core.allocator.free h buffer).heap?

/-- The heap after a sequence of calls. -/
def run : Heap → List Op → Option Heap
  | h, [] => some h
  | h, op :: ops =>
    match step h op with
    | some h1 => run h1 ops
    | none => none

/-- Whether the call releases the address `p`. -/
def Op.frees (p : Nat) : Op → Bool
  | .free buffer => decide (buffer.ptr = p)
  | .publicFree buffer => decide (buffer.ptr = p)
  | _ => false

/-! ## Facts about the host heap -/

theorem stdMalloc_cases (h : Heap) (n cand : Nat) :
    stdMalloc h n cand = (h, 0) ∨
      (cand ≠ 0 ∧ cand + n ≤ SIZE_LIMIT ∧ isFresh h cand n = true ∧
        stdMalloc h n cand = (⟨cand, n, none⟩ :: h, cand)) := by
  unfold stdMalloc
  by_cases hc : cand ≠ 0 ∧ cand + n ≤ SIZE_LIMIT ∧ isFresh h cand n = true
  · right
    rw [if_pos hc]
    exact ⟨hc.1, hc.2.1, hc.2.2, rfl⟩
  · left
    rw [if_neg hc]

theorem isFresh_base_ne {h : Heap} {p n : Nat} (hf : isFresh h p n = true) :
    ∀ blk ∈ h, blk.base ≠ p := by
  intro blk hblk heq
  unfold isFresh at hf
  rw [List.all_eq_true] at hf
  have h1 := of_decide_eq_true (hf blk hblk)
  omega

theorem loadSizeT_mem {h : Heap} {p v : Nat} (hl : loadSizeT h p = some v) :
    ∃ blk ∈ h, blk.base = p := by
  induction h with
  | nil => simp [loadSizeT] at hl
  | cons blk rest ih =>
    by_cases hb : blk.base = p
    · exact ⟨blk, List.mem_cons_self _ _, hb⟩
    · rw [loadSizeT, if_neg hb] at hl
      obtain ⟨blk1, hmem, hbase⟩ := ih hl
      exact ⟨blk1, List.mem_cons_of_mem _ hmem, hbase⟩

theorem loadSizeT_filter (h : Heap) {p q : Nat} (hpq : p ≠ q) :
    loadSizeT (h.filter (fun blk => decide (blk.base ≠ q))) p = loadSizeT h p := by
  induction h with
  | nil => rfl
  | cons blk rest ih =>
    by_cases hq : blk.base = q
    · have hp : blk.base ≠ p := fun hbp => hpq (hbp.symm.trans hq)
      rw [List.filter_cons_of_neg (by simpa using hq), ih, loadSizeT, if_neg hp]
    · rw [List.filter_cons_of_pos (by simpa using hq)]
      by_cases hp : blk.base = p
      · rw [loadSizeT, if_pos hp, loadSizeT, if_pos hp]
      · rw [loadSizeT, if_neg hp, loadSizeT, if_neg hp, ih]

theorem filter_base_ne_of_fresh {h : Heap} {p : Nat} (hne : ∀ blk ∈ h, blk.base ≠ p) :
    h.filter (fun blk => decide (blk.base ≠ p)) = h := by
  rw [List.filter_eq_self]
  intro blk hblk
  simpa using hne blk hblk

/-! ## Facts about the allocator -/

/-- What a normal return of `CommonAllocator::malloc` says: either the host heap failed
and nothing changed, or the offered block was taken, has room for the header, and
carries the requested size in it. -/
theorem CommonAllocator_malloc_ret {h h1 : Heap} {size cand : Nat} {b : Buffer}
    (hm : CommonAllocator.malloc h size cand = .ret b h1) :
    (b.ptr = 0 ∧ h1 = h ∧ stdMalloc h (CommonAllocator.requestBytes size) cand = (h, 0)) ∨
      (b.ptr = cand ∧ cand ≠ 0 ∧
        isFresh h cand (CommonAllocator.requestBytes size) = true ∧
        sizeofSizeT ≤ CommonAllocator.requestBytes size ∧
        stdMalloc h (CommonAllocator.requestBytes size) cand =
          (⟨cand, CommonAllocator.requestBytes size, none⟩ :: h, cand) ∧
        h1 = ⟨cand, CommonAllocator.requestBytes size, some size⟩ :: h) := by
  unfold CommonAllocator.malloc at hm
  rcases stdMalloc_cases h (CommonAllocator.requestBytes size) cand with
    hs | ⟨hc, _, hf, hs⟩
  · rw [hs] at hm
    simp only [ne_eq, not_true_eq_false, if_false, Outcome.ret.injEq] at hm
    left
    exact ⟨by rw [← hm.1], hm.2.symm, hs⟩
  · rw [hs] at hm
    simp only [ne_eq, hc, not_false_eq_true, if_true, storeSizeT] at hm
    by_cases hlen : sizeofSizeT ≤ CommonAllocator.requestBytes size
    · rw [if_pos hlen] at hm
      simp only [Outcome.ret.injEq] at hm
      right
      exact ⟨by rw [← hm.1], hc, hf, hlen, hs, hm.2.symm⟩
    · rw [if_neg hlen] at hm
      simp at hm

theorem CommonAllocator_malloc_ne_raise (h : Heap) (size cand : Nat) (msg : String)
    (h1 : Heap) : CommonAllocator.malloc h size cand ≠ .raise msg h1 := by
  unfold CommonAllocator.malloc
  split
  split
  · split <;> simp
  · simp

/-- The public `malloc` changes the heap exactly as `CommonAllocator::malloc` does. -/
theorem malloc_heap (h : Heap) (size cand : Nat) :
    (malloc h size cand).heap? = (CommonAllocator.malloc h size cand).heap? := by
  unfold malloc
  show (match CommonAllocator.malloc h size cand with
    | .ret buffer h1 =>
      if size ≠ 0 ∧ buffer.ptr = 0 then Outcome.raise (mallocErrorMessage size) h1
      else Outcome.ret buffer h1
    | .raise msg h1 => Outcome.raise msg h1
    | .undefined => Outcome.undefined).heap? = _
  cases CommonAllocator.malloc h size cand with
  | ret buffer h1 =>
    by_cases hc : size ≠ 0 ∧ buffer.ptr = 0
    · simp only [if_pos hc, Outcome.heap?]
    · simp only [if_neg hc, Outcome.heap?]
  | raise msg h1 => rfl
  | undefined => rfl

/-- A normal return of the public `malloc` is a normal return of
`CommonAllocator::malloc` with the same Buffer and heap, and the Buffer is non-null
unless the size is zero. -/
theorem malloc_ret {h h1 : Heap} {size cand : Nat} {b : Buffer}
    (hm : malloc h size cand = .ret b h1) :
    CommonAllocator.malloc h size cand = .ret b h1 ∧ (size ≠ 0 → b.ptr ≠ 0) := by
  unfold malloc at hm
  change (match CommonAllocator.malloc h size cand with
    | .ret buffer h1 =>
      if size ≠ 0 ∧ buffer.ptr = 0 then Outcome.raise (mallocErrorMessage size) h1
      else Outcome.ret buffer h1
    | .raise msg h1 => Outcome.raise msg h1
    | .undefined => Outcome.undefined) = _ at hm
  cases hc : CommonAllocator.malloc h size cand with
  | ret buffer h2 =>
    rw [hc] at hm
    by_cases hcond : size ≠ 0 ∧ buffer.ptr = 0
    · simp only [if_pos hcond] at hm
      exact absurd hm (by simp)
    · simp only [if_neg hcond, Outcome.ret.injEq] at hm
      obtain ⟨rfl, rfl⟩ := hm
      exact ⟨rfl, fun hs hp => hcond ⟨hs, hp⟩⟩
  | raise msg h2 =>
    rw [hc] at hm
    exact absurd hm (by simp)
  | undefined =>
    rw [hc] at hm
    exact absurd hm (by simp)

/-! ## The header of a live block is untouched by calls on other blocks -/

theorem CommonAllocator_malloc_loadSizeT {h h1 : Heap} {size cand p s : Nat}
    (hs : (CommonAllocator.malloc h size cand).heap? = some h1)
    (hl : loadSizeT h p = some s) : loadSizeT h1 p = some s := by
  cases hc : CommonAllocator.malloc h size cand with
  | ret b h2 =>
    rw [hc] at hs
    simp only [Outcome.heap?, Option.some.injEq] at hs
    subst hs
    rcases CommonAllocator_malloc_ret hc with ⟨_, hh, _⟩ | ⟨_, _, hf, _, _, hh⟩
    · rw [hh]; exact hl
    · obtain ⟨blk, hmem, hbase⟩ := loadSizeT_mem hl
      have hne : cand ≠ p := fun hcp => isFresh_base_ne hf blk hmem (hbase.trans hcp.symm)
      rw [hh, loadSizeT, if_neg hne]
      exact hl
  | raise msg h2 => exact absurd hc (CommonAllocator_malloc_ne_raise h size cand msg h2)
  | undefined =>
    rw [hc] at hs
    simp [Outcome.heap?] at hs

theorem CommonAllocator_free_loadSizeT {h h1 : Heap} {b : Buffer} {p s : Nat}
    (hs : (CommonAllocator.free h b).heap? = some h1) (hne : b.ptr ≠ p)
    (hl : loadSizeT h p = some s) : loadSizeT h1 p = some s := by
  unfold CommonAllocator.free stdFree at hs
  by_cases h0 : b.ptr = 0
  · simp only [if_pos h0, Outcome.heap?, Option.some.injEq] at hs
    rw [← hs]; exact hl
  · rw [if_neg h0] at hs
    by_cases hany : (h.any (fun blk => decide (blk.base = b.ptr))) = true
    · simp only [if_pos hany, Outcome.heap?, Option.some.injEq] at hs
      rw [← hs, loadSizeT_filter h (Ne.symm hne)]
      exact hl
    · simp only [if_neg hany, Outcome.heap?] at hs
      exact absurd hs (by simp)

theorem CommonAllocator_size_heap {h h1 : Heap} {b : Buffer}
    (hs : (CommonAllocator.size h b).heap? = some h1) : h1 = h := by
  unfold CommonAllocator.size at hs
  by_cases h0 : b.ptr = 0
  · simp only [if_pos h0, Outcome.heap?, Option.some.injEq] at hs
    exact hs.symm
  · rw [if_neg h0] at hs
    cases hl : loadSizeT h b.ptr with
    | none => rw [hl] at hs; simp [Outcome.heap?] at hs
    | some v =>
      rw [hl] at hs
      simp only [Outcome.heap?, Option.some.injEq] at hs
      exact hs.symm

/-- One call that does not release the block at `p` leaves its header as it was. -/
theorem step_loadSizeT {h h1 : Heap} {op : Op} {p s : Nat}
    (hs : step h op = some h1) (hf : Op.frees p op = false)
    (hl : loadSizeT h p = some s) : loadSizeT h1 p = some s := by
  cases op with
  | malloc size cand => exact CommonAllocator_malloc_loadSizeT hs hl
  | free b =>
    have hne : b.ptr ≠ p := by simpa [Op.frees] using hf
    exact CommonAllocator_free_loadSizeT hs hne hl
  | size b =>
    rw [CommonAllocator_size_heap hs]; exact hl
  | publicMalloc size cand =>
    have hs1 : (CommonAllocator.malloc h size cand).heap? = some h1 := by
      rw [← malloc_heap]; exact hs
    exact CommonAllocator_malloc_loadSizeT hs1 hl
  | publicFree b =>
    have hne : b.ptr ≠ p := by simpa [Op.frees] using hf
    exact CommonAllocator_free_loadSizeT hs hne hl

/-- A sequence of calls none of which releases the block at `p` leaves its header as it
was. -/
theorem run_loadSizeT {ops : List Op} {h h1 : Heap} {p s : Nat}
    (hr : run h ops = some h1) (hf : ∀ op ∈ ops, Op.frees p op = false)
    (hl : loadSizeT h p = some s) : loadSizeT h1 p = some s := by
  induction ops generalizing h with
  | nil =>
    simp only [run, Option.some.injEq] at hr
    rw [← hr]; exact hl
  | cons op rest ih =>
    rw [run] at hr
    cases hst : step h op with
    | none => rw [hst] at hr; simp at hr
    | some h2 =>
      rw [hst] at hr
      exact ih hr (fun o ho => hf o (List.mem_cons_of_mem _ ho))
        (step_loadSizeT hst (hf op (List.mem_cons_self _ _)) hl)

/-- The header of the block a successful `CommonAllocator::malloc` returns holds the
requested size. -/
theorem CommonAllocator_malloc_loadSizeT_self {h h1 : Heap} {size cand : Nat} {b : Buffer}
    (hm : CommonAllocator.malloc h size cand = .ret b h1) (hnn : b.ptr ≠ 0) :
    loadSizeT h1 b.ptr = some size := by
  rcases CommonAllocator_malloc_ret hm with ⟨h0, _, _⟩ | ⟨hp, _, _, hlen, _, hh⟩
  · exact absurd h0 hnn
  · rw [hh, hp, loadSizeT, if_pos rfl, if_pos hlen]

theorem CommonAllocator_size_of_loadSizeT {h : Heap} {b : Buffer} {v : Nat}
    (hnn : b.ptr ≠ 0) (hl : loadSizeT h b.ptr = some v) :
    CommonAllocator.size h b = .ret v h := by
  unfold CommonAllocator.size
  rw [if_neg hnn, hl]

/-! ## The outcome of a call, from the answer of the host heap -/

theorem CommonAllocator_malloc_of_null {h : Heap} {size cand : Nat}
    (hs : stdMalloc h (CommonAllocator.requestBytes size) cand = (h, 0)) :
    CommonAllocator.malloc h size cand = .ret ⟨0⟩ h := by
  unfold CommonAllocator.malloc
  rw [hs]
  simp

theorem CommonAllocator_malloc_of_block {h : Heap} {size cand : Nat}
    (hs : stdMalloc h (CommonAllocator.requestBytes size) cand =
      (⟨cand, CommonAllocator.requestBytes size, none⟩ :: h, cand))
    (hc : cand ≠ 0) (hlen : sizeofSizeT ≤ CommonAllocator.requestBytes size) :
    CommonAllocator.malloc h size cand =
      .ret ⟨cand⟩ (⟨cand, CommonAllocator.requestBytes size, some size⟩ :: h) := by
  unfold CommonAllocator.malloc
  rw [hs]
  simp only [ne_eq, hc, not_false_eq_true, if_true, storeSizeT, if_pos hlen]

theorem CommonAllocator_malloc_of_short_block {h : Heap} {size cand : Nat}
    (hs : stdMalloc h (CommonAllocator.requestBytes size) cand =
      (⟨cand, CommonAllocator.requestBytes size, none⟩ :: h, cand))
    (hc : cand ≠ 0) (hlen : ¬ sizeofSizeT ≤ CommonAllocator.requestBytes size) :
    CommonAllocator.malloc h size cand = .undefined := by
  unfold CommonAllocator.malloc
  rw [hs]
  simp only [ne_eq, hc, not_false_eq_true, if_true, storeSizeT, if_neg hlen]

theorem malloc_of_ret {h h1 : Heap} {size cand : Nat} {b : Buffer}
    (hm : CommonAllocator.malloc h size cand = .ret b h1) :
    malloc h size cand =
      if size ≠ 0 ∧ b.ptr = 0 then .raise (mallocErrorMessage size) h1 else .ret b h1 := by
  unfold malloc
  change (match CommonAllocator.malloc h size cand with
    | .ret buffer h1 =>
      if size ≠ 0 ∧ buffer.ptr = 0 then Outcome.raise (mallocErrorMessage size) h1
      else Outcome.ret buffer h1
    | .raise msg h1 => Outcome.raise msg h1
    | .undefined => Outcome.undefined) = _
  rw [hm]

theorem malloc_of_undefined {h : Heap} {size cand : Nat}
    (hm : CommonAllocator.malloc h size cand = .undefined) :
    malloc h size cand = .undefined := by
  unfold malloc
  change (match CommonAllocator.malloc h size cand with
    | .ret buffer h1 =>
      if size ≠ 0 ∧ buffer.ptr = 0 then Outcome.raise (mallocErrorMessage size) h1
      else Outcome.ret buffer h1
    | .raise msg h1 => Outcome.raise msg h1
    | .undefined => Outcome.undefined) = _
  rw [hm]

theorem requestBytes_of_lt {size : Nat} (hs : size + sizeofSizeT < SIZE_LIMIT) :
    CommonAllocator.requestBytes size = size + sizeofSizeT := by
  unfold CommonAllocator.requestBytes
  exact Nat.mod_eq_of_lt hs

/-- The contract of the public `malloc` on the sizes whose sum with the header width
is a `size_t` value: in every heap and for every answer of the host heap the call
either returns a non-null Buffer that reports the requested size, or raises. -/
theorem malloc_in_range (h : Heap) (size cand : Nat) (hpos : 0 < size)
    (hs : size + sizeofSizeT < SIZE_LIMIT) :
    (∃ b h1, malloc h size cand = .ret b h1 ∧ b.ptr ≠ 0 ∧
        CommonAllocator.size h1 b = .ret size h1) ∨
      malloc h size cand = .raise (mallocErrorMessage size) h := by
  have hlen : sizeofSizeT ≤ CommonAllocator.requestBytes size := by
    rw [requestBytes_of_lt hs]; omega
  rcases stdMalloc_cases h (CommonAllocator.requestBytes size) cand with
    hnull | ⟨hc, _, _, hblk⟩
  · right
    rw [malloc_of_ret (CommonAllocator_malloc_of_null hnull), if_pos ⟨by omega, rfl⟩]
  · left
    have hm := CommonAllocator_malloc_of_block hblk hc hlen
    refine ⟨⟨cand⟩, ⟨cand, CommonAllocator.requestBytes size, some size⟩ :: h, ?_, hc, ?_⟩
    · rw [malloc_of_ret hm, if_neg (fun hcond => hc hcond.2)]
    · exact CommonAllocator_size_of_loadSizeT hc
        (CommonAllocator_malloc_loadSizeT_self hm hc)

/-- The extent of the wrap-around: for every `size_t` value whose sum with the header
width is not a `size_t` value, a request that the host heap serves with a block ends
in a header store that does not fit the block. -/
theorem CommonAllocator_malloc_wrapped_undefined (h : Heap) (size cand : Nat)
    (hlt : size < SIZE_LIMIT) (hov : SIZE_LIMIT ≤ size + sizeofSizeT) (hc : cand ≠ 0)
    (hfit : cand + CommonAllocator.requestBytes size ≤ SIZE_LIMIT)
    (hf : isFresh h cand (CommonAllocator.requestBytes size) = true) :
    CommonAllocator.malloc h size cand = .undefined := by
  have hshort : ¬ sizeofSizeT ≤ CommonAllocator.requestBytes size := by
    unfold CommonAllocator.requestBytes
    simp only [SIZE_LIMIT, sizeofSizeT] at hlt hov ⊢
    norm_num at hlt hov ⊢
    omega
  have hblk : stdMalloc h (CommonAllocator.requestBytes size) cand =
      (⟨cand, CommonAllocator.requestBytes size, none⟩ :: h, cand) := by
    unfold stdMalloc
    rw [if_pos ⟨hc, hfit, hf⟩]
  exact CommonAllocator_malloc_of_short_block hblk hc hshort

/-! ## The blocks that start at an address are untouched by calls on other blocks -/

theorem filter_base_eq_filter_ne (h : Heap) {p q : Nat} (hpq : p ≠ q) :
    (h.filter (fun blk => decide (blk.base ≠ q))).filter (fun blk => decide (blk.base = p)) =
      h.filter (fun blk => decide (blk.base = p)) := by
  induction h with
  | nil => rfl
  | cons blk rest ih =>
    by_cases hq : blk.base = q
    · have hp : blk.base ≠ p := fun hbp => hpq (hbp.symm.trans hq)
      rw [List.filter_cons_of_neg (by simpa using hq), ih,
        List.filter_cons_of_neg (by simpa using hp)]
    · rw [List.filter_cons_of_pos (by simpa using hq)]
      by_cases hp : blk.base = p
      · rw [List.filter_cons_of_pos (by simpa using hp),
          List.filter_cons_of_pos (by simpa using hp), ih]
      · rw [List.filter_cons_of_neg (by simpa using hp),
          List.filter_cons_of_neg (by simpa using hp), ih]

theorem CommonAllocator_malloc_blocksAt {h h1 : Heap} {size cand p : Nat} {blk0 : Block}
    (hs : (CommonAllocator.malloc h size cand).heap? = some h1)
    (hmem : blk0 ∈ h) (hbase : blk0.base = p) :
    h1.filter (fun blk => decide (blk.base = p)) =
      h.filter (fun blk => decide (blk.base = p)) := by
  cases hc : CommonAllocator.malloc h size cand with
  | ret b h2 =>
    rw [hc] at hs
    simp only [Outcome.heap?, Option.some.injEq] at hs
    subst hs
    rcases CommonAllocator_malloc_ret hc with ⟨_, hh, _⟩ | ⟨_, _, hf, _, _, hh⟩
    · rw [hh]
    · have hne : cand ≠ p := fun hcp => isFresh_base_ne hf blk0 hmem (hbase.trans hcp.symm)
      rw [hh, List.filter_cons_of_neg (by simpa using hne)]
  | raise msg h2 => exact absurd hc (CommonAllocator_malloc_ne_raise h size cand msg h2)
  | undefined =>
    rw [hc] at hs
    simp [Outcome.heap?] at hs

theorem CommonAllocator_free_blocksAt {h h1 : Heap} {b : Buffer} {p : Nat}
    (hs : (CommonAllocator.free h b).heap? = some h1) (hne : b.ptr ≠ p) :
    h1.filter (fun blk => decide (blk.base = p)) =
      h.filter (fun blk => decide (blk.base = p)) := by
  unfold CommonAllocator.free stdFree at hs
  by_cases h0 : b.ptr = 0
  · simp only [if_pos h0, Outcome.heap?, Option.some.injEq] at hs
    rw [← hs]
  · rw [if_neg h0] at hs
    by_cases hany : (h.any (fun blk => decide (blk.base = b.ptr))) = true
    · simp only [if_pos hany, Outcome.heap?, Option.some.injEq] at hs
      rw [← hs, filter_base_eq_filter_ne h (Ne.symm hne)]
    · simp only [if_neg hany, Outcome.heap?] at hs
      exact absurd hs (by simp)

/-- One call that does not release the address `p`, made while a block starts at `p`,
leaves the blocks that start at `p` as they were. -/
theorem step_blocksAt {h h1 : Heap} {op : Op} {p : Nat} {blk0 : Block}
    (hs : step h op = some h1) (hf : Op.frees p op = false)
    (hmem : blk0 ∈ h) (hbase : blk0.base = p) :
    h1.filter (fun blk => decide (blk.base = p)) =
      h.filter (fun blk => decide (blk.base = p)) := by
  cases op with
  | malloc size cand => exact CommonAllocator_malloc_blocksAt hs hmem hbase
  | free b =>
    have hne : b.ptr ≠ p := by simpa [Op.frees] using hf
    exact CommonAllocator_free_blocksAt hs hne
  | size b =>
    rw [CommonAllocator_size_heap hs]
  | publicMalloc size cand =>
    have hs1 : (CommonAllocator.malloc h size cand).heap? = some h1 := by
      rw [← malloc_heap]; exact hs
    exact CommonAllocator_malloc_blocksAt hs1 hmem hbase
  | publicFree b =>
    have hne : b.ptr ≠ p := by simpa [Op.frees] using hf
    exact CommonAllocator_free_blocksAt hs hne

/-- A sequence of calls none of which releases the address `p` leaves the one block
that starts at `p` as it was. -/
theorem run_blocksAt {ops : List Op} {h h1 : Heap} {p : Nat} {blk0 : Block}
    (hr : run h ops = some h1) (hf : ∀ op ∈ ops, Op.frees p op = false)
    (hb : h.filter (fun blk => decide (blk.base = p)) = [blk0]) :
    h1.filter (fun blk => decide (blk.base = p)) = [blk0] := by
  induction ops generalizing h with
  | nil =>
    simp only [run, Option.some.injEq] at hr
    rw [← hr]; exact hb
  | cons op rest ih =>
    rw [run] at hr
    cases hst : step h op with
    | none => rw [hst] at hr; simp at hr
    | some h2 =>
      rw [hst] at hr
      have hin : blk0 ∈ h.filter (fun blk => decide (blk.base = p)) := by
        rw [hb]; exact List.mem_singleton_self blk0
      rw [List.mem_filter] at hin
      have hbase : blk0.base = p := by simpa using hin.2
      have hkeep := step_blocksAt hst (hf op (List.mem_cons_self _ _)) hin.1 hbase
      exact ih hr (fun o ho => hf o (List.mem_cons_of_mem _ ho)) (hkeep.trans hb)

/-- The function `CommonAllocator::free` is `std::free` of the Buffer's pointer, in every
heap and for every Buffer, and the public `free` is the same call. -/
theorem CommonAllocator_free_eq_stdFree (g : Heap) (c : Buffer) :
    (∀ g1, stdFree g c.ptr = some g1 →
        CommonAllocator.free g c = Outcome.ret () g1 ∧ free g c = Outcome.ret () g1) ∧
      (stdFree g c.ptr = none →
        CommonAllocator.free g c = Outcome.undefined ∧ free g c = Outcome.undefined) := by
  have hpub : free g c = CommonAllocator.free g c := rfl
  refine ⟨fun g1 hg => ?_, fun hg => ?_⟩
  · have hc : CommonAllocator.free g c = Outcome.ret () g1 := by
      unfold CommonAllocator.free
      rw [hg]
    exact ⟨hc, hpub.trans hc⟩
  · have hc : CommonAllocator.free g c = Outcome.undefined := by
      unfold CommonAllocator.free
      rw [hg]
    exact ⟨hc, hpub.trans hc⟩

/-! ## The claims -/

/-- C1 (code defect): at `size = SIZE_MAX`, on the empty heap, with the host heap
serving the request at address 16, the sum `size + sizeof(size_t)` wraps to 7, the
host heap hands out a 7-byte block, and the 8-byte header store does not fit in it:
the public `malloc` neither returns a Buffer nor raises. -/
theorem C1_malloc_size_max_neither_returns_nor_raises :
    0 < SIZE_MAX ∧ SIZE_MAX < SIZE_LIMIT ∧
      malloc [] SIZE_MAX 16 = Outcome.undefined ∧
      (¬ ∃ b h1, malloc [] SIZE_MAX 16 = Outcome.ret b h1) ∧
      (¬ ∃ msg h1, malloc [] SIZE_MAX 16 = Outcome.raise msg h1) := by
  have hu : malloc [] SIZE_MAX 16 = Outcome.undefined := by decide
  refine ⟨by decide, by decide, hu, ?_, ?_⟩
  · rintro ⟨b, h1, hb⟩
    rw [hu] at hb
    exact absurd hb (by simp)
  · rintro ⟨msg, h1, hb⟩
    rw [hu] at hb
    exact absurd hb (by simp)

/-- C2: the public `malloc` raises exactly when the size is positive and the backing
allocator returned the null Buffer, which it does exactly when the host heap returned
null; the error then carries the text "[malloc] Unable to allocate <size> bytes." with
the decimal rendering of the requested size, and the heap is as before the call. -/
theorem C2_malloc_raises_iff_positive_size_and_null (h : Heap) (size cand : Nat) :
    ((∃ msg h1, malloc h size cand = Outcome.raise msg h1) ↔
        (0 < size ∧ ∃ h1, Allocator.malloc allocator h size cand = Outcome.ret ⟨0⟩ h1)) ∧
      ((∃ h1, Allocator.malloc allocator h size cand = Outcome.ret ⟨0⟩ h1) ↔
        (stdMalloc h (CommonAllocator.requestBytes size) cand).2 = 0) ∧
      (∀ msg h1, malloc h size cand = Outcome.raise msg h1 →
        msg = "[malloc] Unable to allocate " ++ Nat.repr size ++ " bytes." ∧ h1 = h) := by
  have hkey : ∀ msg h1, malloc h size cand = Outcome.raise msg h1 →
      0 < size ∧ CommonAllocator.malloc h size cand = Outcome.ret ⟨0⟩ h ∧
        msg = mallocErrorMessage size ∧ h1 = h := by
    intro msg h1 hm
    cases hc : CommonAllocator.malloc h size cand with
    | ret b h2 =>
      rw [malloc_of_ret hc] at hm
      by_cases hcond : size ≠ 0 ∧ b.ptr = 0
      · rw [if_pos hcond] at hm
        simp only [Outcome.raise.injEq] at hm
        rcases CommonAllocator_malloc_ret hc with ⟨_, hh, _⟩ | ⟨hp, hne, _⟩
        · have hb : b = ⟨0⟩ := by cases b; simpa using hcond.2
          subst hb
          exact ⟨Nat.pos_of_ne_zero hcond.1, by rw [hh], hm.1.symm, by rw [← hm.2, hh]⟩
        · exact absurd (hp.symm.trans hcond.2) hne
      · rw [if_neg hcond] at hm
        exact absurd hm (by simp)
    | raise msg2 h2 => exact absurd hc (CommonAllocator_malloc_ne_raise h size cand msg2 h2)
    | undefined =>
      rw [malloc_of_undefined hc] at hm
      exact absurd hm (by simp)
  refine ⟨⟨?_, ?_⟩, ⟨?_, ?_⟩, ?_⟩
  · rintro ⟨msg, h1, hm⟩
    obtain ⟨hpos, hc, _, _⟩ := hkey msg h1 hm
    exact ⟨hpos, h, hc⟩
  · rintro ⟨hpos, h1, hc⟩
    have hc1 : CommonAllocator.malloc h size cand = Outcome.ret ⟨0⟩ h1 := hc
    exact ⟨mallocErrorMessage size, h1, by
      rw [malloc_of_ret hc1, if_pos ⟨by omega, rfl⟩]⟩
  · rintro ⟨h1, hc⟩
    have hc1 : CommonAllocator.malloc h size cand = Outcome.ret ⟨0⟩ h1 := hc
    rcases CommonAllocator_malloc_ret hc1 with ⟨_, _, hs⟩ | ⟨hp, hne, _⟩
    · rw [hs]
    · exact absurd hp.symm hne
  · intro hz
    rcases stdMalloc_cases h (CommonAllocator.requestBytes size) cand with
      hnull | ⟨hc, _, _, hblk⟩
    · exact ⟨h, CommonAllocator_malloc_of_null hnull⟩
    · rw [hblk] at hz
      exact absurd hz hc
  · intro msg h1 hm
    obtain ⟨_, _, hmsg, hh⟩ := hkey msg h1 hm
    exact ⟨hmsg, hh⟩

/-- C3: when `CommonAllocator::malloc(s)` returns a non-null Buffer, `size` of that
Buffer is `s` right after the call and after every later sequence of size queries,
`malloc` calls and `free` calls in which that Buffer is not released. -/
theorem C3_size_stable_until_free (h h1 h2 : Heap) (s cand : Nat) (b : Buffer)
    (ops : List Op) (hm : CommonAllocator.malloc h s cand = Outcome.ret b h1)
    (hnn : b.ptr ≠ 0) (hops : ∀ op ∈ ops, Op.frees b.ptr op = false)
    (hr : run h1 ops = some h2) :
    CommonAllocator.size h1 b = Outcome.ret s h1 ∧
      CommonAllocator.size h2 b = Outcome.ret s h2 := by
  have hl := CommonAllocator_malloc_loadSizeT_self hm hnn
  exact ⟨CommonAllocator_size_of_loadSizeT hnn hl,
    CommonAllocator_size_of_loadSizeT hnn (run_loadSizeT hr hops hl)⟩

/-- Witness of C3: a 64-byte Buffer at address 16, then an allocation, two size
queries, a failed public allocation (caught), a second allocation and the release of
the first of these other blocks; the Buffer still reports 64. -/
theorem C3_size_stable_until_free_witness :
    CommonAllocator.malloc [] 64 16 = Outcome.ret ⟨16⟩ [⟨16, 72, some 64⟩] ∧
      run [⟨16, 72, some 64⟩]
          [Op.malloc 32 128, Op.size ⟨16⟩, Op.size ⟨128⟩, Op.publicMalloc 5 0,
            Op.publicMalloc 8 256, Op.free ⟨128⟩] =
        some [⟨256, 16, some 8⟩, ⟨16, 72, some 64⟩] ∧
      CommonAllocator.size [⟨256, 16, some 8⟩, ⟨16, 72, some 64⟩] ⟨16⟩ =
        Outcome.ret 64 [⟨256, 16, some 8⟩, ⟨16, 72, some 64⟩] :=
  ⟨by decide, by decide,
    (C3_size_stable_until_free [] [⟨16, 72, some 64⟩]
      [⟨256, 16, some 8⟩, ⟨16, 72, some 64⟩] 64 16 ⟨16⟩
      [Op.malloc 32 128, Op.size ⟨16⟩, Op.size ⟨128⟩, Op.publicMalloc 5 0,
        Op.publicMalloc 8 256, Op.free ⟨128⟩]
      (by decide) (by decide) (by decide) (by decide)).2⟩

/-- C4: in every heap and for every answer of the host heap, null or a block, the
public `malloc(0)` returns normally, and `CommonAllocator::size` of the returned
Buffer is 0. -/
theorem C4_malloc_zero_returns_and_reports_zero (h : Heap) (cand : Nat) :
    ∃ b h1, malloc h 0 cand = Outcome.ret b h1 ∧
      CommonAllocator.size h1 b = Outcome.ret 0 h1 := by
  have hlen : sizeofSizeT ≤ CommonAllocator.requestBytes 0 := by decide
  rcases stdMalloc_cases h (CommonAllocator.requestBytes 0) cand with
    hnull | ⟨hc, _, _, hblk⟩
  · refine ⟨⟨0⟩, h, ?_, ?_⟩
    · rw [malloc_of_ret (CommonAllocator_malloc_of_null hnull), if_neg (fun hcond => hcond.1 rfl)]
    · simp [CommonAllocator.size]
  · have hm := CommonAllocator_malloc_of_block hblk hc hlen
    refine ⟨⟨cand⟩, ⟨cand, CommonAllocator.requestBytes 0, some 0⟩ :: h, ?_, ?_⟩
    · rw [malloc_of_ret hm, if_neg (fun hcond => hcond.1 rfl)]
    · exact CommonAllocator_size_of_loadSizeT hc
        (CommonAllocator_malloc_loadSizeT_self hm hc)

/-- C5 (as stated, refuted): `malloc(64)` at address 16, the release of that Buffer,
and `malloc(64)` again with the host heap handing out the released address: two
successful calls with non-zero sizes whose Buffers have the same pointer. -/
theorem C5_counterexample_address_reused_after_free :
    ∃ (b1 b2 : Buffer) (h1 h2 h3 : Heap),
      malloc [] 64 16 = Outcome.ret b1 h1 ∧
        run h1 [Op.publicFree b1] = some h2 ∧
        malloc h2 64 16 = Outcome.ret b2 h3 ∧
        b1.ptr = b2.ptr :=
  ⟨⟨16⟩, ⟨16⟩, [⟨16, 72, some 64⟩], [], [⟨16, 72, some 64⟩],
    by decide, by decide, by decide, rfl⟩

/-- C5 (amended): two successful public `malloc` calls with non-zero sizes, the first
Buffer not released in between, return Buffers with different pointers, and after
the second call each reports the size it was requested with. -/
theorem C5_live_allocations_have_distinct_pointers (h h1 h2 h3 : Heap)
    (s1 c1 s2 c2 : Nat) (b1 b2 : Buffer) (ops : List Op)
    (hs1 : s1 ≠ 0) (hs2 : s2 ≠ 0)
    (hm1 : malloc h s1 c1 = Outcome.ret b1 h1)
    (hops : ∀ op ∈ ops, Op.frees b1.ptr op = false)
    (hr : run h1 ops = some h2)
    (hm2 : malloc h2 s2 c2 = Outcome.ret b2 h3) :
    b1.ptr ≠ b2.ptr ∧
      CommonAllocator.size h3 b1 = Outcome.ret s1 h3 ∧
      CommonAllocator.size h3 b2 = Outcome.ret s2 h3 := by
  obtain ⟨hc1, hnn1⟩ := malloc_ret hm1
  obtain ⟨hc2, hnn2⟩ := malloc_ret hm2
  have hl2 := run_loadSizeT hr hops (CommonAllocator_malloc_loadSizeT_self hc1 (hnn1 hs1))
  have hl3 : loadSizeT h3 b1.ptr = some s1 :=
    CommonAllocator_malloc_loadSizeT (by rw [hc2]; rfl) hl2
  refine ⟨?_, CommonAllocator_size_of_loadSizeT (hnn1 hs1) hl3,
    CommonAllocator_size_of_loadSizeT (hnn2 hs2)
      (CommonAllocator_malloc_loadSizeT_self hc2 (hnn2 hs2))⟩
  rcases CommonAllocator_malloc_ret hc2 with ⟨h0, _, _⟩ | ⟨hp, _, hf, _, _, _⟩
  · exact absurd h0 (hnn2 hs2)
  · obtain ⟨blk, hmem, hbase⟩ := loadSizeT_mem hl2
    intro heq
    exact isFresh_base_ne hf blk hmem (hbase.trans (heq.trans hp))

/-- Witness of C5 (amended): `malloc(64)` at address 16, an unrelated allocation and
its release, then `malloc(64)` at address 512. -/
theorem C5_live_allocations_have_distinct_pointers_witness :
    malloc [] 64 16 = Outcome.ret ⟨16⟩ [⟨16, 72, some 64⟩] ∧
      run [⟨16, 72, some 64⟩] [Op.publicMalloc 32 128, Op.publicFree ⟨128⟩] =
        some [⟨16, 72, some 64⟩] ∧
      malloc [⟨16, 72, some 64⟩] 64 512 =
        Outcome.ret ⟨512⟩ [⟨512, 72, some 64⟩, ⟨16, 72, some 64⟩] ∧
      ((⟨16⟩ : Buffer).ptr ≠ (⟨512⟩ : Buffer).ptr ∧
        CommonAllocator.size [⟨512, 72, some 64⟩, ⟨16, 72, some 64⟩] ⟨16⟩ =
          Outcome.ret 64 [⟨512, 72, some 64⟩, ⟨16, 72, some 64⟩] ∧
        CommonAllocator.size [⟨512, 72, some 64⟩, ⟨16, 72, some 64⟩] ⟨512⟩ =
          Outcome.ret 64 [⟨512, 72, some 64⟩, ⟨16, 72, some 64⟩]) :=
  ⟨by decide, by decide, by decide,
    C5_live_allocations_have_distinct_pointers [] [⟨16, 72, some 64⟩]
      [⟨16, 72, some 64⟩] [⟨512, 72, some 64⟩, ⟨16, 72, some 64⟩] 64 16 64 512
      ⟨16⟩ ⟨512⟩ [Op.publicMalloc 32 128, Op.publicFree ⟨128⟩]
      (by decide) (by decide) (by decide) (by decide) (by decide) (by decide)⟩

/-- C6 (as stated, refuted): for the `size_t` value `SIZE_MAX` the number of bytes
requested from the host heap is 7, not the sum `SIZE_MAX + sizeof(size_t)`. -/
theorem C6_counterexample_request_wraps_at_size_max :
    SIZE_MAX < SIZE_LIMIT ∧
      CommonAllocator.requestBytes SIZE_MAX = 7 ∧
      CommonAllocator.requestBytes SIZE_MAX ≠ SIZE_MAX + sizeofSizeT ∧
      stdMalloc [] (CommonAllocator.requestBytes SIZE_MAX) 16 = ([⟨16, 7, none⟩], 16) := by
  decide

/-- C6 (amended): for every size with `size + sizeof(size_t) ≤ SIZE_MAX`,
`CommonAllocator::malloc(size)` asks the host heap for exactly
`size + sizeof(size_t)` bytes, and the block of a successful call has that length. -/
theorem C6_request_is_sum_when_representable (size : Nat)
    (hs : size + sizeofSizeT ≤ SIZE_MAX) :
    CommonAllocator.requestBytes size = size + sizeofSizeT ∧
      ∀ (h : Heap) (cand : Nat),
        (CommonAllocator.malloc h size cand = Outcome.ret ⟨0⟩ h ∧
            stdMalloc h (size + sizeofSizeT) cand = (h, 0)) ∨
          (CommonAllocator.malloc h size cand =
              Outcome.ret ⟨cand⟩ (⟨cand, size + sizeofSizeT, some size⟩ :: h) ∧
            stdMalloc h (size + sizeofSizeT) cand =
              (⟨cand, size + sizeofSizeT, none⟩ :: h, cand)) := by
  have hlt : size + sizeofSizeT < SIZE_LIMIT := by
    unfold SIZE_MAX at hs
    have : 0 < SIZE_LIMIT := by decide
    omega
  have hreq := requestBytes_of_lt hlt
  refine ⟨hreq, fun h cand => ?_⟩
  have hlen : sizeofSizeT ≤ CommonAllocator.requestBytes size := by
    rw [hreq]; omega
  rcases stdMalloc_cases h (CommonAllocator.requestBytes size) cand with
    hnull | ⟨hc, _, _, hblk⟩
  · left
    exact ⟨CommonAllocator_malloc_of_null hnull, by rw [← hreq]; exact hnull⟩
  · right
    have hm := CommonAllocator_malloc_of_block hblk hc hlen
    rw [hreq] at hm hblk
    exact ⟨hm, hblk⟩

/-- Witness of C6 (amended): the size 1024, for which 1032 bytes are requested. -/
theorem C6_request_is_sum_when_representable_witness :
    1024 + sizeofSizeT ≤ SIZE_MAX ∧ CommonAllocator.requestBytes 1024 = 1032 :=
  ⟨by decide, (C6_request_is_sum_when_representable 1024 (by decide)).1⟩

/-- C7: `CommonAllocator::size` is 0 for the null Buffer in every heap; for a non-null
Buffer it returns the `size_t` value stored at the address the Buffer wraps, and no
other value; it never raises, and the heap after the call is the heap before it. -/
theorem C7_size_reads_header_verbatim (h : Heap) (b : Buffer) :
    CommonAllocator.size h ⟨0⟩ = Outcome.ret 0 h ∧
      (∀ v, b.ptr ≠ 0 → loadSizeT h b.ptr = some v →
        CommonAllocator.size h b = Outcome.ret v h) ∧
      (∀ v h1, CommonAllocator.size h b = Outcome.ret v h1 →
        h1 = h ∧ (b.ptr ≠ 0 → loadSizeT h b.ptr = some v)) ∧
      (∀ msg h1, CommonAllocator.size h b ≠ Outcome.raise msg h1) := by
  refine ⟨by simp [CommonAllocator.size], ?_, ?_, ?_⟩
  · intro v hnn hl
    exact CommonAllocator_size_of_loadSizeT hnn hl
  · intro v h1 hs
    refine ⟨CommonAllocator_size_heap (by rw [hs]; rfl), fun hnn => ?_⟩
    unfold CommonAllocator.size at hs
    rw [if_neg hnn] at hs
    cases hl : loadSizeT h b.ptr with
    | none => rw [hl] at hs; exact absurd hs (by simp)
    | some w =>
      rw [hl] at hs
      simp only [Outcome.ret.injEq] at hs
      rw [hs.1]
  · intro msg h1
    unfold CommonAllocator.size
    split
    · simp
    · split <;> simp

/-- Witness of C7: a heap with a 16-byte block at address 256 and a 72-byte block at
address 16 whose header holds 64; `size` of the Buffer at 16 is 64. -/
theorem C7_size_reads_header_verbatim_witness :
    loadSizeT [⟨256, 16, some 8⟩, ⟨16, 72, some 64⟩] 16 = some 64 ∧
      CommonAllocator.size [⟨256, 16, some 8⟩, ⟨16, 72, some 64⟩] ⟨16⟩ =
        Outcome.ret 64 [⟨256, 16, some 8⟩, ⟨16, 72, some 64⟩] :=
  ⟨by decide,
    (C7_size_reads_header_verbatim [⟨256, 16, some 8⟩, ⟨16, 72, some 64⟩] ⟨16⟩).2.1 64
      (by decide) (by decide)⟩

/-- C8: `CommonAllocator::free` and the public `free` of the null Buffer return
normally with the heap unchanged; and the release of a Buffer that `malloc` (public or
`CommonAllocator::malloc`) returned, after any sequence of calls in which it was not
released, returns normally. -/
theorem C8_free_null_is_noop_and_free_of_live_returns :
    (∀ h : Heap, CommonAllocator.free h ⟨0⟩ = Outcome.ret () h) ∧
      (∀ h : Heap, free h ⟨0⟩ = Outcome.ret () h) ∧
      (∀ (h h1 h2 : Heap) (size cand : Nat) (b : Buffer) (ops : List Op),
        (CommonAllocator.malloc h size cand = Outcome.ret b h1 ∨
          malloc h size cand = Outcome.ret b h1) →
        (∀ op ∈ ops, Op.frees b.ptr op = false) →
        run h1 ops = some h2 →
        ∃ h3, CommonAllocator.free h2 b = Outcome.ret () h3 ∧
          free h2 b = Outcome.ret () h3) := by
  have hnull : ∀ h : Heap, CommonAllocator.free h ⟨0⟩ = Outcome.ret () h := by
    intro h
    simp [CommonAllocator.free, stdFree]
  refine ⟨hnull, hnull, ?_⟩
  intro h h1 h2 size cand b ops hm hops hr
  have hc : CommonAllocator.malloc h size cand = Outcome.ret b h1 := by
    rcases hm with hm | hm
    · exact hm
    · exact (malloc_ret hm).1
  by_cases h0 : b.ptr = 0
  · refine ⟨h2, ?_, ?_⟩ <;>
      simp [free, allocator, commonAllocator, CommonAllocator.free, stdFree, h0]
  · have hl := run_loadSizeT hr hops (CommonAllocator_malloc_loadSizeT_self hc h0)
    obtain ⟨blk, hmem, hbase⟩ := loadSizeT_mem hl
    have hany : (h2.any (fun blk => decide (blk.base = b.ptr))) = true := by
      rw [List.any_eq_true]
      exact ⟨blk, hmem, by simpa using hbase⟩
    refine ⟨h2.filter (fun blk => decide (blk.base ≠ b.ptr)), ?_, ?_⟩ <;>
      simp only [free, allocator, commonAllocator, CommonAllocator.free, stdFree, if_neg h0,
        if_pos hany]

/-- Witness of C8: a Buffer from `malloc(1024)` at address 4096, another allocation
and a size query in between, and then its release, which returns normally. -/
theorem C8_free_null_is_noop_and_free_of_live_returns_witness :
    malloc [] 1024 4096 = Outcome.ret ⟨4096⟩ [⟨4096, 1032, some 1024⟩] ∧
      run [⟨4096, 1032, some 1024⟩] [Op.publicMalloc 64 16, Op.size ⟨4096⟩] =
        some [⟨16, 72, some 64⟩, ⟨4096, 1032, some 1024⟩] ∧
      free [⟨16, 72, some 64⟩, ⟨4096, 1032, some 1024⟩] ⟨4096⟩ =
        Outcome.ret () [⟨16, 72, some 64⟩] ∧
      ∃ h3, CommonAllocator.free [⟨16, 72, some 64⟩, ⟨4096, 1032, some 1024⟩] ⟨4096⟩ =
          Outcome.ret () h3 ∧
        free [⟨16, 72, some 64⟩, ⟨4096, 1032, some 1024⟩] ⟨4096⟩ = Outcome.ret () h3 :=
  ⟨by decide, by decide, by decide,
    C8_free_null_is_noop_and_free_of_live_returns.2.2 [] [⟨4096, 1032, some 1024⟩]
      [⟨16, 72, some 64⟩, ⟨4096, 1032, some 1024⟩] 1024 4096 ⟨4096⟩
      [Op.publicMalloc 64 16, Op.size ⟨4096⟩] (Or.inr (by decide)) (by decide) (by decide)⟩

/-- C9: in every heap and for every Buffer, `CommonAllocator::free` (and the public
`free`) is `std::free` of the pointer the Buffer wraps: it returns with the heap
`std::free` leaves, and is undefined where `std::free` is.  A successful
`CommonAllocator::malloc` returns a Buffer that wraps the very address the host heap
returned, which is the start of the new block and the place of the size header.  After
any sequence of calls in which that Buffer is not released, the block `malloc`
obtained is still the one live block at that address, and `free` of the Buffer releases
that block and no other: the heap afterwards is the heap before with exactly the
blocks at that address removed; released right after the `malloc`, the heap is again
the heap before the `malloc`. -/
theorem C9_buffer_wraps_block_start_and_free_releases_it :
    (∀ (g g1 : Heap) (c : Buffer), stdFree g c.ptr = some g1 →
        CommonAllocator.free g c = Outcome.ret () g1 ∧ free g c = Outcome.ret () g1) ∧
      (∀ (g : Heap) (c : Buffer), stdFree g c.ptr = none →
        CommonAllocator.free g c = Outcome.undefined ∧ free g c = Outcome.undefined) ∧
      (∀ (h h1 h2 : Heap) (size cand : Nat) (b : Buffer) (ops : List Op),
        CommonAllocator.malloc h size cand = Outcome.ret b h1 →
        b.ptr ≠ 0 →
        (∀ op ∈ ops, Op.frees b.ptr op = false) →
        run h1 ops = some h2 →
        stdMalloc h (CommonAllocator.requestBytes size) cand =
            (⟨b.ptr, CommonAllocator.requestBytes size, none⟩ :: h, b.ptr) ∧
          h1 = ⟨b.ptr, CommonAllocator.requestBytes size, some size⟩ :: h ∧
          loadSizeT h1 b.ptr = some size ∧
          CommonAllocator.free h1 b = Outcome.ret () h ∧
          free h1 b = Outcome.ret () h ∧
          h2.filter (fun blk => decide (blk.base = b.ptr)) =
            [⟨b.ptr, CommonAllocator.requestBytes size, some size⟩] ∧
          CommonAllocator.free h2 b =
            Outcome.ret () (h2.filter (fun blk => decide (blk.base ≠ b.ptr))) ∧
          free h2 b =
            Outcome.ret () (h2.filter (fun blk => decide (blk.base ≠ b.ptr)))) := by
  refine ⟨fun g g1 c hg => (CommonAllocator_free_eq_stdFree g c).1 g1 hg,
    fun g c hg => (CommonAllocator_free_eq_stdFree g c).2 hg, ?_⟩
  intro h h1 h2 size cand b ops hm hnn hops hr
  have hl := CommonAllocator_malloc_loadSizeT_self hm hnn
  rcases CommonAllocator_malloc_ret hm with ⟨h0, _, _⟩ | ⟨hp, hc, hf, _, hblk, hh⟩
  · exact absurd h0 hnn
  · have hfresh := isFresh_base_ne hf
    have hfree1 : stdFree h1 b.ptr = some h := by
      rw [hh, hp]
      unfold stdFree
      rw [if_neg hc, if_pos (by simp), List.filter_cons_of_neg (by simp),
        filter_base_ne_of_fresh hfresh]
    have hat1 : h1.filter (fun blk => decide (blk.base = b.ptr)) =
        [⟨b.ptr, CommonAllocator.requestBytes size, some size⟩] := by
      have hnone : h.filter (fun blk => decide (blk.base = cand)) = [] := by
        rw [List.filter_eq_nil_iff]
        intro blk hmem
        simpa using hfresh blk hmem
      rw [hh, hp, List.filter_cons_of_pos (by simp), hnone]
    have hat2 := run_blocksAt hr hops hat1
    have hin : (⟨b.ptr, CommonAllocator.requestBytes size, some size⟩ : Block) ∈
        h2.filter (fun blk => decide (blk.base = b.ptr)) := by
      rw [hat2]; exact List.mem_singleton_self _
    rw [List.mem_filter] at hin
    have hany : (h2.any (fun blk => decide (blk.base = b.ptr))) = true := by
      rw [List.any_eq_true]
      exact ⟨_, hin.1, hin.2⟩
    have hfree2 : stdFree h2 b.ptr =
        some (h2.filter (fun blk => decide (blk.base ≠ b.ptr))) := by
      unfold stdFree
      rw [if_neg hnn, if_pos hany]
    have r1 := (CommonAllocator_free_eq_stdFree h1 b).1 h hfree1
    have r2 := (CommonAllocator_free_eq_stdFree h2 b).1 _ hfree2
    exact ⟨by rw [hp]; exact hblk, by rw [hp]; exact hh, hl, r1.1, r1.2, hat2, r2.1, r2.2⟩

/-- Witness of C9: `malloc(1024)` with the host heap answering 4096, in a heap that
holds a block at 16; then an allocation at 128, a size query and the release of the
block at 16.  The release of the Buffer at 4096 leaves exactly the block at 128, which
is neither the heap before the `malloc` nor the heap without its most recent block. -/
theorem C9_buffer_wraps_block_start_and_free_releases_it_witness :
    CommonAllocator.malloc [⟨16, 72, some 64⟩] 1024 4096 =
        Outcome.ret ⟨4096⟩ [⟨4096, 1032, some 1024⟩, ⟨16, 72, some 64⟩] ∧
      run [⟨4096, 1032, some 1024⟩, ⟨16, 72, some 64⟩]
          [Op.malloc 32 128, Op.size ⟨4096⟩, Op.free ⟨16⟩] =
        some [⟨128, 40, some 32⟩, ⟨4096, 1032, some 1024⟩] ∧
      List.filter (fun blk => decide (blk.base ≠ 4096))
          ([⟨128, 40, some 32⟩, ⟨4096, 1032, some 1024⟩] : Heap) =
        [⟨128, 40, some 32⟩] ∧
      CommonAllocator.free [⟨16, 72, some 64⟩, ⟨4096, 1032, some 1024⟩] ⟨4096⟩ =
        Outcome.ret () [⟨16, 72, some 64⟩] ∧
      CommonAllocator.free [⟨128, 40, some 32⟩, ⟨4096, 1032, some 1024⟩] ⟨4096⟩ =
        Outcome.ret () (List.filter (fun blk => decide (blk.base ≠ (⟨4096⟩ : Buffer).ptr))
          ([⟨128, 40, some 32⟩, ⟨4096, 1032, some 1024⟩] : Heap)) :=
  ⟨by decide, by decide, by decide,
    (C9_buffer_wraps_block_start_and_free_releases_it.1
      [⟨16, 72, some 64⟩, ⟨4096, 1032, some 1024⟩] [⟨16, 72, some 64⟩] ⟨4096⟩
      (by decide)).1,
    (C9_buffer_wraps_block_start_and_free_releases_it.2.2 [⟨16, 72, some 64⟩]
      [⟨4096, 1032, some 1024⟩, ⟨16, 72, some 64⟩]
      [⟨128, 40, some 32⟩, ⟨4096, 1032, some 1024⟩] 1024 4096 ⟨4096⟩
      [Op.malloc 32 128, Op.size ⟨4096⟩, Op.free ⟨16⟩]
      (by decide) (by decide) (by decide) (by decide)).2.2.2.2.2.2.1⟩

/-- C10 (code defect): at `size = SIZE_MAX` the host heap is asked for 7 bytes, fewer
than `sizeof(size_t)`; when it answers with a block (here at address 16), the header
store is performed on that block and does not lie within it. -/
theorem C10_header_store_outside_block_at_size_max :
    SIZE_MAX < SIZE_LIMIT ∧
      CommonAllocator.requestBytes SIZE_MAX < sizeofSizeT ∧
      stdMalloc [] (CommonAllocator.requestBytes SIZE_MAX) 16 = ([⟨16, 7, none⟩], 16) ∧
      storeSizeT [⟨16, 7, none⟩] 16 SIZE_MAX = none ∧
      CommonAllocator.malloc [] SIZE_MAX 16 = Outcome.undefined := by
  decide

end mlx.core.allocator
